import Mathlib

/-!
# Verification of the `ade-ctld` CMDLIST core

A shallow embedding of the `ade-ctld` daemon's core: the CMDLIST wire
protocol parser (`parser` package), the application index (`indexer`
package), the desktop-entry scanner (`desktop` package) and the
per-connection command dispatcher and filter engine (`server` package).
Go strings are modelled as Lean `String`s; the Go standard-library string
functions used by the code are re-implemented below over `List Char`
(ASCII-faithful, which covers every input considered here).  Go maps
(`map[string]string`, `map[int64]*Entry`) are modelled as association
lists; map iteration is only ever used by the code in order-insensitive
ways or in ways the spec declares unobservable.
-/

namespace AdeCtld

/-! ## Go string primitives (ASCII model) -/

/-- Whitespace set of Go `unicode.IsSpace`, restricted to ASCII. -/
def isSpaceGo (c : Char) : Bool :=
  c = ' ' || c = '\t' || c = '\n' || c.toNat = 11 || c.toNat = 12 || c = '\r'

/-- `strings.TrimSpace`: drop leading and trailing whitespace. -/
def trimGo (s : String) : String :=
  String.mk (((s.toList.dropWhile isSpaceGo).reverse.dropWhile isSpaceGo).reverse)

/-- Is `p` a prefix of `l`? (Go `strings.HasPrefix` on char lists.) -/
def isPrefixList : List Char → List Char → Bool
  | [], _ => true
  | _ :: _, [] => false
  | a :: as, b :: bs => a = b && isPrefixList as bs

/-- Go `strings.HasPrefix`. -/
def hasPrefixGo (s pre : String) : Bool :=
  isPrefixList pre.toList s.toList

/-- Go `strings.HasSuffix`. -/
def hasSuffixGo (s suf : String) : Bool :=
  isPrefixList suf.toList.reverse s.toList.reverse

/-- Core loop of Go `strings.Contains`. -/
def containsList (needle : List Char) : List Char → Bool
  | [] => isPrefixList needle []
  | c :: t => isPrefixList needle (c :: t) || containsList needle t

/-- Go `strings.Contains s sub`. -/
def containsGo (s sub : String) : Bool :=
  containsList sub.toList s.toList

/-- ASCII lower-casing of one character (model of Go `unicode.ToLower`
restricted to ASCII, which covers the inputs considered here). -/
def toLowerCharGo (c : Char) : Char :=
  if 'A' ≤ c ∧ c ≤ 'Z' then Char.ofNat (c.toNat + 32) else c

/-- Go `strings.ToLower` (ASCII model). -/
def toLowerGo (s : String) : String :=
  String.mk (s.toList.map toLowerCharGo)

/-- Go `strings.EqualFold` (ASCII model: case-insensitive equality). -/
def equalFoldGo (a b : String) : Bool :=
  toLowerGo a = toLowerGo b

/-- Accumulator loop of Go `strings.Fields`. -/
def fieldsAux : List Char → List Char → List String
  | acc, [] => if acc.isEmpty then [] else [String.mk acc.reverse]
  | acc, c :: t =>
    if isSpaceGo c then
      if acc.isEmpty then fieldsAux [] t
      else String.mk acc.reverse :: fieldsAux [] t
    else fieldsAux (c :: acc) t

/-- Go `strings.Fields`: split around runs of whitespace. -/
def fieldsGo (s : String) : List String :=
  fieldsAux [] s.toList

/-- Go `strings.Trim s "[]"`: drop leading and trailing `[` / `]` chars. -/
def trimBrackets (s : String) : String :=
  let cut (c : Char) : Bool := c = '[' || c = ']'
  String.mk (((s.toList.dropWhile cut).reverse.dropWhile cut).reverse)

/-- Go `strings.SplitN line "=" 2`: split at the first `=`, if any. -/
def splitEq2 : List Char → Option (List Char × List Char)
  | [] => none
  | c :: t =>
    if c = '=' then some ([], t)
    else match splitEq2 t with
      | some (a, b) => some (c :: a, b)
      | none => none

/-- Go `strings.Split value ";"` (single-char separator). -/
def splitSemiAux : List Char → List Char → List String
  | acc, [] => [String.mk acc.reverse]
  | acc, c :: t =>
    if c = ';' then String.mk acc.reverse :: splitSemiAux [] t
    else splitSemiAux (c :: acc) t

def splitSemi (s : String) : List String :=
  splitSemiAux [] s.toList

/-- Go `filepath.Base` (no trailing-slash handling, enough for file paths):
the part after the last `/`. -/
def baseGo (s : String) : String :=
  String.mk ((s.toList.reverse.takeWhile (fun c => c ≠ '/')).reverse)

/-- Go `strings.TrimSuffix`. -/
def trimSuffixGo (s suf : String) : String :=
  if hasSuffixGo s suf then String.mk (s.toList.take (s.toList.length - suf.toList.length))
  else s

def isDigitGo (c : Char) : Bool :=
  '0' ≤ c && c ≤ '9'

def digitsToNat (l : List Char) : Nat :=
  l.foldl (fun a c => a * 10 + (c.toNat - 48)) 0

/-- Go `strconv.ParseInt(s, 10, 64)`: optional sign, then one or more
decimal digits, value must fit in a signed 64-bit integer. -/
def parseIntGo (s : String) : Option Int :=
  match s.toList with
  | [] => none
  | c :: rest =>
    let p : Bool × List Char :=
      if c = '-' then (true, rest)
      else if c = '+' then (false, rest)
      else (false, c :: rest)
    if p.2.isEmpty || !(p.2.all isDigitGo) then none
    else
      let v : Int := if p.1 then -(digitsToNat p.2 : Int) else (digitsToNat p.2 : Int)
      if v < -(2 ^ 63) || v ≥ 2 ^ 63 then none else some v

/-- Decimal rendering of an `Int`, matching `fmt`'s `%d`. -/
def intToStr (i : Int) : String :=
  if i < 0 then "-" ++ Nat.repr i.natAbs else Nat.repr i.natAbs

/-- Lookup in an association list (model of Go map indexing `m[k]`). -/
def lookupAssoc (m : List (String × String)) (k : String) : Option String :=
  match m with
  | [] => none
  | (k', v) :: t => if k' = k then some v else lookupAssoc t k

/-! ## `parser` package -/

/-- `parser.ValueType`. -/
inductive ValueType where
  | string
  | int
  | bool
deriving DecidableEq, Repr, Inhabited

/-- `parser.Value`: a value on the stack.  As in the Go struct, all
payload fields are present with zero values. -/
structure Value where
  type : ValueType
  str : String := ""
  int : Int := 0
  bool : Bool := false
deriving DecidableEq, Repr, Inhabited

/-- `parser.Command`. -/
structure Command where
  name : String
  args : List Value
deriving DecidableEq, Repr

/-- `parser.Parser` after `NewParser`: the consumed header and version
bytes, and the rest of the stream. -/
structure Parser where
  header : String
  version : String
  rest : List Char
deriving DecidableEq, Repr

/-- `parser.NewParser`: read exactly 5 header bytes; fail with
`invalid header` when fewer are available; fail with
`unsupported format` when the first three bytes are not `TXT`.
The version bytes are stored but not validated. -/
def NewParser (input : List Char) : Except String Parser :=
  if input.length < 5 then .error "invalid header"
  else
    let headerBytes := input.take 5
    let header := String.mk (headerBytes.take 3)
    let version := String.mk (headerBytes.drop 3)
    if header ≠ "TXT" then .error ("unsupported format: " ++ header)
    else .ok ⟨header, version, input.drop 5⟩

def exceptIsOk (e : Except String Parser) : Bool :=
  match e with
  | .ok _ => true
  | .error _ => false

instance : DecidableEq (Except String Parser) := fun a b =>
  match a, b with
  | .ok x, .ok y =>
    if h : x = y then isTrue (by rw [h])
    else isFalse (fun hc => h (by injection hc))
  | .error x, .error y =>
    if h : x = y then isTrue (by rw [h])
    else isFalse (fun hc => h (by injection hc))
  | .ok _, .error _ => isFalse (fun hc => by injection hc)
  | .error _, .ok _ => isFalse (fun hc => by injection hc)

/-- `parser.parseCommand`'s table of known command verbs. -/
def knownVerbs : List String :=
  ["filter-name", "+filter-name", "+filter-cat", "+filter-path", "0filters",
   "list", "run", "lang", "saveconf", "list-next", "reindex"]

/-- `parser.parseCommand`: the verb named by the line, or `none`. -/
def parseCommandVerb (line : String) : Option String :=
  let l := trimGo line
  if knownVerbs.contains l then some l else none

/-- `parser.parseValue`: classify a non-verb line as a stack value. -/
def parseValue (line : String) : Option Value :=
  let l := trimGo line
  if hasPrefixGo l "\"" then
    some { type := .string, str := String.mk l.toList.tail }
  else if l = "t" then some { type := .bool, bool := true }
  else if l = "f" then some { type := .bool, bool := false }
  else if l = "or" then some { type := .bool, bool := true, str := "or" }
  else if l = "and" then some { type := .bool, bool := false, str := "and" }
  else if l = "not" then some { type := .bool, bool := false, str := "not" }
  else match parseIntGo l with
    | some n => some { type := .int, int := n }
    | none => none

/-- `bufio.Reader.ReadString('\n')` loop as seen by `ParseCommand`: the
stream after the header, cut into LF-terminated lines.  A final chunk
without a terminating LF is returned together with `io.EOF` and the
source checks the error first, so that chunk is discarded. -/
def splitLinesAux : List Char → List Char → List String
  | _, [] => []
  | acc, c :: t =>
    if c = '\n' then String.mk acc.reverse :: splitLinesAux [] t
    else splitLinesAux (c :: acc) t

def splitLines (cs : List Char) : List String :=
  splitLinesAux [] cs

/-! ## `indexer` package -/

/-- `indexer.Entry`. -/
structure Entry where
  id : Int := 0
  name : String
  names : List (String × String) := []
  path : String := ""
  exec : String := ""
  terminal : Bool := false
  categories : List String := []
  isDesktop : Bool := false
deriving DecidableEq, Repr

/-- `indexer.Index`: the entry table (`map[int64]*Entry`, modelled in
insertion order) and the next-id counter. -/
structure Index where
  entries : List (Int × Entry)
  nextID : Int
deriving DecidableEq, Repr

/-- `indexer.NewIndex`. -/
def Index.NewIndex : Index :=
  { entries := [], nextID := 1 }

/-- `indexer.Index.Add`: assign the next ID, store the entry, return the
new index together with the assigned ID. -/
def Index.Add (idx : Index) (e : Entry) : Index × Int :=
  let stored := { e with id := idx.nextID }
  ({ entries := idx.entries ++ [(idx.nextID, stored)], nextID := idx.nextID + 1 },
   idx.nextID)

/-- `indexer.Index.Get`. -/
def Index.Get (idx : Index) (i : Int) : Option Entry :=
  match idx.entries.find? (fun p => p.1 = i) with
  | some p => some p.2
  | none => none

/-- `indexer.Index.GetAll`. -/
def Index.GetAll (idx : Index) : List Entry :=
  idx.entries.map Prod.snd

/-- `indexer.Index.Count`. -/
def Index.Count (idx : Index) : Nat :=
  idx.entries.length

/-- Insert a list of entries one by one via `Add` (the merging consumer
`processResults` does exactly this with the candidates it drains). -/
def addAll (idx : Index) : List Entry → Index
  | [] => idx
  | e :: t => addAll (idx.Add e).1 t

/-- One observable event of an indexer process lifetime: an insertion, or
a re-index.  `Indexer.runIndexing` rebuilds by `idx.index = NewIndex()`,
so a re-index replaces the table with a fresh one whose `nextID` is 1. -/
inductive IndexEvent where
  | add (e : Entry)
  | reindex
deriving DecidableEq, Repr

/-- Run a list of index events from a fresh index, logging every
(ID, entry) assignment made by `Add` over the whole lifetime. -/
def runEvents : Index → List IndexEvent → Index × List (Int × Entry)
  | idx, [] => (idx, [])
  | idx, .add e :: t =>
    let step := idx.Add e
    let k := runEvents step.1 t
    (k.1, (step.2, { e with id := step.2 }) :: k.2)
  | _, .reindex :: t => runEvents Index.NewIndex t

/-- The assignment log of a process lifetime started from a fresh index. -/
def runLog (evs : List IndexEvent) : List (Int × Entry) :=
  (runEvents Index.NewIndex evs).2

/-! ## `desktop` package -/

/-- `desktop.DesktopEntry`. -/
structure DesktopEntry where
  name : String := ""
  names : List (String × String) := []
  exec : String := ""
  terminal : Bool := false
  categories : List String := []
  path : String := ""
deriving DecidableEq, Repr

/-- State of `ParseDesktopFile`'s line loop. -/
structure DesktopScanState where
  entry : DesktopEntry
  currentSection : String := ""
  inDesktopEntry : Bool := false
deriving Repr

/-- Record one localized name (Go map assignment `entry.Names[locale] = value`;
the key cannot repeat in practice, and lookups take the first hit). -/
def setName (m : List (String × String)) (k v : String) : List (String × String) :=
  match m with
  | [] => [(k, v)]
  | (k', v') :: t => if k' = k then (k, v) :: t else (k', v') :: setName t k v

/-- One iteration of `ParseDesktopFile`'s scanner loop. -/
def desktopLine (st : DesktopScanState) (raw : String) : DesktopScanState :=
  let line := trimGo raw
  if line = "" || hasPrefixGo line "#" then st
  else if hasPrefixGo line "[" && hasSuffixGo line "]" then
    let sec := trimBrackets line
    { st with currentSection := sec, inDesktopEntry := sec = "Desktop Entry" }
  else if !st.inDesktopEntry then st
  else match splitEq2 line.toList with
    | none => st
    | some (k, v) =>
      let key := trimGo (String.mk k)
      let value := trimGo (String.mk v)
      if key = "Name" then { st with entry := { st.entry with name := value } }
      else if key = "Exec" then { st with entry := { st.entry with exec := value } }
      else if key = "Terminal" then
        { st with entry := { st.entry with terminal := toLowerGo value = "true" } }
      else if key = "Categories" then
        let cats := (splitSemi value).map trimGo |>.filter (fun c => c ≠ "")
        { st with entry := { st.entry with categories := cats } }
      else if hasPrefixGo key "Name[" && hasSuffixGo key "]" then
        let locale := String.mk ((key.toList.drop 5).dropLast)
        { st with entry := { st.entry with names := setName st.entry.names locale value } }
      else st

/-- `desktop.ParseDesktopFile`, over the file's content given as its list
of text lines (the filesystem read itself is outside the model). -/
def ParseDesktopFile (path : String) (fileLines : List String) : Option DesktopEntry :=
  let final := fileLines.foldl desktopLine { entry := { path := path } }
  let e := final.entry
  if e.name = "" && e.exec = "" then none
  else if e.name = "" then
    some { e with name := trimSuffixGo (baseGo path) ".desktop" }
  else some e

/-- `desktop.removeFieldCodes`: drop `%x` field codes, turning `%%` into
a literal `%`. -/
def removeFieldCodes : List Char → List Char
  | [] => []
  | ['%'] => ['%']
  | '%' :: c :: t =>
    if ('a' ≤ c && c ≤ 'z') || ('A' ≤ c && c ≤ 'Z') then removeFieldCodes t
    else if c = '%' then '%' :: removeFieldCodes t
    else '%' :: removeFieldCodes (c :: t)
  | c :: t => c :: removeFieldCodes t

/-- `desktop.CleanExecCommand`: strip field codes and normalize spaces.
(Defined in the source but never called by the indexing pipeline.) -/
def CleanExecCommand (exec : String) : String :=
  String.intercalate " " (fieldsGo (String.mk (removeFieldCodes exec.toList)))

/-- Entry built by `Indexer.processResults` from a desktop-scanner
candidate (the ID is assigned later by `Index.Add`). -/
def desktopCandidate (desk : DesktopEntry) : Entry :=
  { name := desk.name, names := desk.names, path := desk.path, exec := desk.exec,
    terminal := desk.terminal, categories := desk.categories, isDesktop := true }

/-- Entry built by `Indexer.processResults` from an executable-scanner
candidate `{Name, Path}`. -/
def execCandidate (name path : String) : Entry :=
  { name := name, path := path, exec := path, terminal := false, isDesktop := false }

/-! ## `server` package

Embeds the `server` package's dispatcher: filter state, the per-dimension
match functions, the command handlers, and the connection loop that fuses
`Parser.ParseCommand` with `handleConnection` / `executeCommand`.  Process
spawning is modelled by recording the argv lists started; the `pid` the OS
would hand back and the configured terminal program are parameters. -/

/-- `server.FilterExpr`. -/
structure FilterExpr where
  values : List String
  op : String
deriving DecidableEq, Repr

/-- `server.Filters`. -/
structure Filters where
  nameFilters : List FilterExpr := []
  catFilters : List FilterExpr := []
  pathFilters : List FilterExpr := []
deriving DecidableEq, Repr

/-- The per-connection server state the handlers read and write. -/
structure ServerState where
  filters : Filters := {}
  lang : String := "en"
  index : Index := Index.NewIndex
deriving DecidableEq, Repr

/-- `server.matchesNameFilter`: some value is a case-insensitive
substring of the entry name, or of some localized name. -/
def matchesNameFilter (e : Entry) (f : FilterExpr) : Bool :=
  (f.values.any fun v => containsGo (toLowerGo e.name) (toLowerGo v)) ||
  (e.names.any fun kv => f.values.any fun v => containsGo (toLowerGo kv.2) (toLowerGo v))

/-- `server.matchesCatFilter`: some category equals (case-insensitively)
some value. -/
def matchesCatFilter (e : Entry) (f : FilterExpr) : Bool :=
  e.categories.any fun c => f.values.any fun v => equalFoldGo c v

/-- `server.matchesPathFilter`: some value is a substring of the path. -/
def matchesPathFilter (e : Entry) (f : FilterExpr) : Bool :=
  f.values.any fun v => containsGo e.path v

/-- `server.matchesFilters`: each dimension with at least one expression
must have some matching expression. -/
def matchesFilters (fl : Filters) (e : Entry) : Bool :=
  (fl.nameFilters.isEmpty || fl.nameFilters.any (matchesNameFilter e)) &&
  (fl.catFilters.isEmpty || fl.catFilters.any (matchesCatFilter e)) &&
  (fl.pathFilters.isEmpty || fl.pathFilters.any (matchesPathFilter e))

/-- `server.filterEntries`. -/
def filterEntries (fl : Filters) (entries : List Entry) : List Entry :=
  entries.filter (matchesFilters fl)

/-- The argument walk shared by the three `handleFilter*` handlers:
strings accumulate as values, the last boolean argument sets the op
(`true` ↦ `"or"`, `false` ↦ `"and"`). -/
def applyFilterArgs (dflt : String) (args : List Value) : FilterExpr :=
  args.foldl
    (fun expr arg =>
      if arg.type = .string then { expr with values := expr.values ++ [arg.str] }
      else if arg.type = .bool then
        { expr with op := if arg.bool then "or" else "and" }
      else expr)
    { values := [], op := dflt }

/-- `server.handleFilterName` (default op `"or"`). -/
def handleFilterName (fl : Filters) (args : List Value) : Filters :=
  let expr := applyFilterArgs "or" args
  if expr.values.length > 0 then { fl with nameFilters := fl.nameFilters ++ [expr] }
  else fl

/-- `server.handleFilterCat` (default op `"and"`). -/
def handleFilterCat (fl : Filters) (args : List Value) : Filters :=
  let expr := applyFilterArgs "and" args
  if expr.values.length > 0 then { fl with catFilters := fl.catFilters ++ [expr] }
  else fl

/-- `server.handleFilterPath` (default op `"or"`). -/
def handleFilterPath (fl : Filters) (args : List Value) : Filters :=
  let expr := applyFilterArgs "or" args
  if expr.values.length > 0 then { fl with pathFilters := fl.pathFilters ++ [expr] }
  else fl

/-- `server.writeError`'s frame. -/
def errFrame (cmd errType desc : String) : String :=
  "error-cmd: " ++ cmd ++ "\nerror: " ++ errType ++ "\ndesc: " ++ desc ++ "\n\n"

/-- Display name used by `handleList`: the localized name for the session
language when present, else the default name. -/
def displayName (lang : String) (e : Entry) : String :=
  if lang ≠ "" then
    match lookupAssoc e.names lang with
    | some n => n
    | none => e.name
  else e.name

/-- `server.handleList`'s wire output: the attribute block then one
`<id> <name>` row per filtered entry. -/
def handleListOut (st : ServerState) : String :=
  let filtered := filterEntries st.filters st.index.GetAll
  "list-len: " ++ Nat.repr filtered.length ++ "\npages: 1\n\n" ++
    String.join (filtered.map fun e => intToStr e.id ++ " " ++ displayName st.lang e ++ "\n")

/-- Result of dispatching one command: the new session state, the bytes
written to the connection, and the argv lists of processes started. -/
structure CmdResult where
  state : ServerState
  out : String
  spawns : List (List String)
deriving DecidableEq, Repr

/-- `server.handleRun` (for the spawn, `term` is the configured terminal
program and `pid` the process ID the OS would return). -/
def handleRun (term : String) (pid : Int) (st : ServerState) (cmd : Command) : CmdResult :=
  if cmd.args.isEmpty || (cmd.args.headI.type ≠ ValueType.int) then
    ⟨st, errFrame "run" "missing id" "run command requires an id parameter", []⟩
  else
    let i := cmd.args.headI.int
    match st.index.Get i with
    | none =>
      ⟨st, errFrame "run" "index not found"
        "Can't run application, requested index not found.", []⟩
    | some entry =>
      if entry.terminal then
        ⟨st, "cmd: run\nidx: " ++ intToStr i ++ "\nstatus: 0\npid: " ++ intToStr pid ++ "\n\n",
         [[term, "-e", entry.exec]]⟩
      else
        let parts := fieldsGo entry.exec
        if parts.isEmpty then
          ⟨st, errFrame "run" "invalid exec" "Empty exec command", []⟩
        else
          ⟨st, "cmd: run\nidx: " ++ intToStr i ++ "\nstatus: 0\npid: " ++ intToStr pid ++ "\n\n",
           [parts]⟩

/-- `server.handleLang`: set the session language when the first argument
is a string, else return silently. -/
def handleLang (st : ServerState) (cmd : Command) : ServerState :=
  if cmd.args.isEmpty || (cmd.args.headI.type ≠ ValueType.string) then st
  else { st with lang := cmd.args.headI.str }

/-- `server.executeCommand`: dispatch one parsed command. -/
def executeCommand (term : String) (pid : Int) (st : ServerState) (cmd : Command) : CmdResult :=
  if cmd.name = "+filter-name" then
    ⟨{ st with filters := handleFilterName st.filters cmd.args }, "", []⟩
  else if cmd.name = "+filter-cat" then
    ⟨{ st with filters := handleFilterCat st.filters cmd.args }, "", []⟩
  else if cmd.name = "+filter-path" then
    ⟨{ st with filters := handleFilterPath st.filters cmd.args }, "", []⟩
  else if cmd.name = "0filters" then
    ⟨{ st with filters := { nameFilters := [], catFilters := [], pathFilters := [] } }, "", []⟩
  else if cmd.name = "list" then
    ⟨st, handleListOut st, []⟩
  else if cmd.name = "run" then
    handleRun term pid st cmd
  else if cmd.name = "lang" then
    ⟨handleLang st cmd, "", []⟩
  else
    ⟨st, errFrame cmd.name "unknown command" "Command not recognized", []⟩

/-- Result of serving a whole connection. -/
structure ServeRes where
  state : ServerState
  out : String
  spawns : List (List String)
deriving DecidableEq, Repr

/-- The fused `handleConnection` / `ParseCommand` loop over the decoded
lines: values push onto the stack, a verb line commits the stack as a
command, an unparseable line yields a `parse error` frame, and both a
commit and a parse error leave the next command a fresh stack. -/
def serveLines (term : String) (pid : Int) (st : ServerState) (stack : List Value) :
    List String → ServeRes
  | [] => ⟨st, "", []⟩
  | line :: rest =>
    let l := trimGo line
    if l = "" then serveLines term pid st stack rest
    else if hasPrefixGo l "#" then serveLines term pid st stack rest
    else match parseCommandVerb l with
      | some v =>
        let r := executeCommand term pid st ⟨v, stack⟩
        let k := serveLines term pid r.state [] rest
        ⟨k.state, r.out ++ k.out, r.spawns ++ k.spawns⟩
      | none => match parseValue l with
        | some val => serveLines term pid st (stack ++ [val]) rest
        | none =>
          let k := serveLines term pid st [] rest
          ⟨k.state,
           errFrame "parser" "parse error" ("parse error: cannot parse value: " ++ l) ++ k.out,
           k.spawns⟩

/-- `server.handleConnection`: construct the parser (header check); on
failure answer with the `invalid header` frame and exit, otherwise serve
the decoded command lines. -/
def handleConnection (term : String) (pid : Int) (st : ServerState) (input : List Char) :
    ServeRes :=
  match NewParser input with
  | .error e => ⟨st, errFrame "parser" "invalid header" e, []⟩
  | .ok p => serveLines term pid st [] (splitLines p.rest)

/-! ## Index invariants -/

/-- The spec's index invariant: `next_id` strictly exceeds every live ID
and every live ID is present exactly once. -/
def indexInv (idx : Index) : Prop :=
  (∀ p ∈ idx.entries, p.1 < idx.nextID) ∧ (idx.entries.map Prod.fst).Nodup

theorem indexInv_newIndex : indexInv Index.NewIndex := by
  constructor
  · intro p hp; simp [Index.NewIndex] at hp
  · simp [Index.NewIndex]

theorem indexInv_add (idx : Index) (e : Entry) (h : indexInv idx) :
    indexInv (idx.Add e).1 := by
  obtain ⟨hlt, hnd⟩ := h
  constructor
  · intro p hp
    simp only [Index.Add, List.mem_append, List.mem_singleton] at hp
    simp only [Index.Add]
    rcases hp with hp | hp
    · have := hlt p hp; omega
    · subst hp; omega
  · simp only [Index.Add, List.map_append, List.map_cons, List.map_nil]
    rw [List.nodup_append]
    refine ⟨hnd, List.nodup_singleton _, ?_⟩
    intro a ha hb
    simp only [List.mem_singleton] at hb
    subst hb
    simp only [List.mem_map] at ha
    obtain ⟨p, hp, hpa⟩ := ha
    have := hlt p hp
    omega

theorem indexInv_addAll (idx : Index) (es : List Entry) (h : indexInv idx) :
    indexInv (addAll idx es) := by
  induction es generalizing idx with
  | nil => simpa [addAll] using h
  | cons e t ih => exact ih _ (indexInv_add idx e h)

/-- Every ID in the log of an add-only run is at least the starting
`nextID`. -/
theorem runEvents_adds_le (idx : Index) (es : List Entry) :
    ∀ q ∈ (runEvents idx (es.map .add)).2, idx.nextID ≤ q.1 := by
  induction es generalizing idx with
  | nil => intro q hq; simp [runEvents] at hq
  | cons e t ih =>
    intro q hq
    simp only [List.map_cons, runEvents, List.mem_cons] at hq
    rcases hq with hq | hq
    · subst hq; simp [Index.Add]
    · have := ih (idx.Add e).1 q hq
      simp only [Index.Add] at this
      omega

/-- In an add-only run, an ID determines its entry in the log. -/
theorem runEvents_adds_functional (idx : Index) (es : List Entry) :
    ∀ p ∈ (runEvents idx (es.map .add)).2, ∀ q ∈ (runEvents idx (es.map .add)).2,
      p.1 = q.1 → p.2 = q.2 := by
  induction es generalizing idx with
  | nil => intro p hp; simp [runEvents] at hp
  | cons e t ih =>
    intro p hp q hq hpq
    simp only [List.map_cons, runEvents, List.mem_cons] at hp hq
    rcases hp with hp | hp <;> rcases hq with hq | hq
    · subst hp; subst hq; rfl
    · exfalso
      have := runEvents_adds_le (idx.Add e).1 t q hq
      subst hp
      simp only [Index.Add] at this hpq
      omega
    · exfalso
      have := runEvents_adds_le (idx.Add e).1 t p hp
      subst hq
      simp only [Index.Add] at this hpq
      omega
    · exact ih (idx.Add e).1 p hp q hq hpq

/-- The claim of C4, as a predicate on a lifetime of index events: no ID
in the assignment log is ever bound to two different entries. -/
def idsNeverReassigned (evs : List IndexEvent) : Prop :=
  ∀ p ∈ runLog evs, ∀ q ∈ runLog evs, p.1 = q.1 → p.2 = q.2

/-! ## Dispatcher lemmas -/

/-- The filter-argument walk keeps the op inside `{"or", "and"}` whenever
it starts there (it is only ever overwritten with `"or"` or `"and"`). -/
theorem applyFilterArgs_foldl_op (args : List Value) (init : FilterExpr)
    (h : init.op = "or" ∨ init.op = "and") :
    ((args.foldl
      (fun expr arg =>
        if arg.type = .string then { expr with values := expr.values ++ [arg.str] }
        else if arg.type = .bool then
          { expr with op := if arg.bool then "or" else "and" }
        else expr)
      init).op = "or" ∨
     (args.foldl
      (fun expr arg =>
        if arg.type = .string then { expr with values := expr.values ++ [arg.str] }
        else if arg.type = .bool then
          { expr with op := if arg.bool then "or" else "and" }
        else expr)
      init).op = "and") := by
  induction args generalizing init with
  | nil => simpa using h
  | cons a t ih =>
    simp only [List.foldl_cons]
    apply ih
    by_cases hs : a.type = ValueType.string
    · simpa [hs] using h
    · by_cases hb : a.type = ValueType.bool
      · by_cases hbv : a.bool = true <;> simp [hs, hb, hbv]
      · simpa [hs, hb] using h

theorem applyFilterArgs_op (dflt : String) (args : List Value)
    (h : dflt = "or" ∨ dflt = "and") :
    (applyFilterArgs dflt args).op = "or" ∨ (applyFilterArgs dflt args).op = "and" := by
  unfold applyFilterArgs
  exact applyFilterArgs_foldl_op args { values := [], op := dflt } h

/-- With all three filter lists empty, every entry matches. -/
theorem matchesFilters_empty (e : Entry) :
    matchesFilters { nameFilters := [], catFilters := [], pathFilters := [] } e = true := by
  simp [matchesFilters]

/-- `NewParser` succeeds on a stream of at least 5 bytes exactly when the
first three bytes read `TXT`; the version bytes are not examined. -/
theorem newParser_ok_iff (input : List Char) (h : 5 ≤ input.length) :
    exceptIsOk (NewParser input) = true ↔ input.take 3 = "TXT".toList := by
  have hnl : ¬ input.length < 5 := by omega
  have htk : (input.take 5).take 3 = input.take 3 := by
    rw [List.take_take]; norm_num
  have hstr : (String.mk ((input.take 5).take 3) = "TXT") ↔ input.take 3 = "TXT".toList := by
    rw [htk]
    constructor
    · intro hc
      have h2 := congrArg String.toList hc
      simpa using h2
    · intro hc
      rw [hc]; rfl
  constructor
  · intro hok
    by_contra hne
    have hcond : String.mk ((input.take 5).take 3) ≠ "TXT" := fun hc => hne (hstr.mp hc)
    unfold NewParser at hok
    rw [if_neg hnl, if_pos hcond] at hok
    simp [exceptIsOk] at hok
  · intro he
    have hcond : ¬ (String.mk ((input.take 5).take 3) ≠ "TXT") :=
      not_not_intro (hstr.mpr he)
    unfold NewParser
    rw [if_neg hnl, if_neg hcond]
    rfl

/-! ## Concrete fixtures used by the claims -/

def fxEntry : Entry := { name := "Firefox" }

def fxwEntry : Entry := { name := "Firefox (Wayland)" }

def gimpEntry : Entry := { name := "Gimp" }

/-- The scenario-S1 index: exactly Firefox (id 1), Firefox (Wayland)
(id 2), Gimp (id 3). -/
def s1Index : Index := addAll Index.NewIndex [fxEntry, fxwEntry, gimpEntry]

/-- A fresh session over the S1 index. -/
def s1State : ServerState := { index := s1Index }

def graphicsEntry : Entry := { name := "x", categories := ["Graphics"] }

def alphaEntry : Entry := { name := "Alpha" }

/-! ## Claims -/

/-- C1: the claim says the stored `op` of a filter expression determines
how its values combine (name: `or` = any, `and` = all, `not` = none;
category `and` = contains every value).  The code stores the op but the
match functions never read it: a name expression matches iff ANY value is
a substring, and a category expression matches iff ANY value equals some
category, whatever the op.  Evaluated here: an `and` category expression
matches an entry carrying only one of its two values, an `and` name
expression matches although one value does not occur, and a `not` name
expression behaves identically to the `and` one. -/
theorem c1_op_ignored_eval :
    matchesCatFilter graphicsEntry ⟨["graphics", "viewers"], "and"⟩ = true
    ∧ (["graphics", "viewers"].all fun v =>
        graphicsEntry.categories.any fun c => equalFoldGo c v) = false
    ∧ matchesNameFilter alphaEntry ⟨["alpha", "zzz"], "and"⟩ = true
    ∧ containsGo (toLowerGo alphaEntry.name) (toLowerGo "zzz") = false
    ∧ matchesNameFilter alphaEntry ⟨["alpha"], "not"⟩ = true
    ∧ matchesNameFilter alphaEntry ⟨["alpha", "zzz"], "not"⟩ =
        matchesNameFilter alphaEntry ⟨["alpha", "zzz"], "and"⟩ := by
  decide

/-- C2: scenario S1 claims the session `"fi fox\n+filter-name\nlist\n`
over the three-entry index answers with rows `1 Firefox` and
`2 Firefox (Wayland)` and `list-len: 2`.  The code pushes the single
string `fi fox` as ONE search term and `matchesNameFilter` tests it as a
literal substring, which `firefox` does not contain, so the code answers
`list-len: 0` with an empty body. -/
theorem c2_s1_session_eval :
    (handleConnection "xterm" 0 s1State ("TXT01\"fi fox\n+filter-name\nlist\n".toList)).out =
      "list-len: 0\npages: 1\n\n"
    ∧ containsGo
        (handleConnection "xterm" 0 s1State ("TXT01\"fi fox\n+filter-name\nlist\n".toList)).out
        "Firefox" = false := by
  decide

/-- C3 counterexample: the claim says every 5-byte header other than
`TXT01` fails parser construction, in particular `TXT` with version
bytes other than `01`.  `NewParser` accepts the 5-byte header `TXT99`:
it stores the version bytes without checking them. -/
theorem c3_version_unchecked_cex :
    NewParser "TXT99".toList = .ok ⟨"TXT", "99", []⟩
    ∧ ("TXT99" : String) ≠ "TXT01" := by
  decide

/-- C3 amended: parser construction fails exactly when fewer than 5
header bytes are available or the first three bytes differ from `TXT`;
the two version bytes are stored unchecked, so any `TXT` header is
accepted whatever its version.  On a failed construction the connection
handler answers with an `invalid header` parser error frame and exits. -/
theorem c3_amended_header_check :
    (∀ input : List Char, 5 ≤ input.length →
      (exceptIsOk (NewParser input) = true ↔ input.take 3 = "TXT".toList))
    ∧ (∀ input : List Char, input.length < 5 → NewParser input = .error "invalid header")
    ∧ (∀ (term : String) (pid : Int) (st : ServerState) (input : List Char) (e : String),
        NewParser input = .error e →
        handleConnection term pid st input = ⟨st, errFrame "parser" "invalid header" e, []⟩) := by
  refine ⟨newParser_ok_iff, ?_, ?_⟩
  · intro input hlen
    unfold NewParser
    rw [if_pos hlen]
  · intro term pid st input e he
    unfold handleConnection
    rw [he]

theorem c3_amended_header_check_witness :
    exceptIsOk (NewParser "TXT99".toList) = true
    ∧ NewParser ("AB".toList) = .error "invalid header"
    ∧ handleConnection "xterm" 0 {} ("BIN01".toList) =
        ⟨{}, errFrame "parser" "invalid header" "unsupported format: BIN", []⟩ :=
  ⟨(c3_amended_header_check.1 "TXT99".toList (by decide)).mpr (by decide),
   c3_amended_header_check.2.1 "AB".toList (by decide),
   c3_amended_header_check.2.2 "xterm" 0 {} "BIN01".toList
     "unsupported format: BIN" (by decide)⟩

/-- C4 counterexample: the claim says an ID is never reassigned to a
different entry within one process lifetime, including across a
re-index.  `runIndexing` rebuilds with `idx.index = NewIndex()`, whose
`nextID` restarts at 1, so after a re-index the first inserted entry gets
ID 1 again: in the lifetime add Firefox, re-index, add Gimp, the ID 1 is
assigned to Firefox and then to Gimp. -/
theorem c4_id_reused_after_reindex_cex :
    ¬ idsNeverReassigned [.add fxEntry, .reindex, .add gimpEntry] := by
  unfold idsNeverReassigned
  decide

/-- C4 amended: within the lifetime of a single index table (no
re-index), an ID once assigned is never assigned to a different entry;
a re-index installs a fresh table whose next-id counter restarts at 1,
so IDs are reassigned to new entries across a re-index. -/
theorem c4_amended_no_reuse_without_reindex (es : List Entry) :
    idsNeverReassigned (es.map .add) := by
  unfold idsNeverReassigned runLog
  exact runEvents_adds_functional Index.NewIndex es

theorem c4_amended_no_reuse_without_reindex_witness :
    ((1 : Int), ({ name := "Firefox", id := 1 } : Entry)).2 =
      ((1 : Int), ({ name := "Firefox", id := 1 } : Entry)).2 :=
  c4_amended_no_reuse_without_reindex [fxEntry]
    (1, { name := "Firefox", id := 1 }) (by decide)
    (1, { name := "Firefox", id := 1 }) (by decide) rfl

/-- C5: the claim says a desktop-sourced entry's `exec` is the desktop
file's `Exec` with field codes stripped (`%%` → `%`), and an
executable-sourced entry's `exec` equals its `path`.  The executable
half holds, but `ParseDesktopFile` stores the raw `Exec` value and
`processResults` copies it unchanged: the stripping helper
`CleanExecCommand` exists in the source yet is never called, so the
pipeline keeps `firefox %u` as is where the stripped form is
`firefox`. -/
theorem c5_exec_field_codes_eval :
    ((ParseDesktopFile "/usr/share/applications/firefox.desktop"
        ["[Desktop Entry]", "Name=Firefox", "Exec=firefox %u"]).map
      fun d => (desktopCandidate d).exec) = some "firefox %u"
    ∧ CleanExecCommand "firefox %u" = "firefox"
    ∧ ("firefox %u" : String) ≠ "firefox"
    ∧ ∀ name path, (execCandidate name path).exec = (execCandidate name path).path := by
  refine ⟨by decide, by decide, by decide, fun name path => rfl⟩

/-- Committing a verb line: one step of the connection loop on a line
that is its own trim and a known verb. -/
theorem serveLines_verb (term : String) (pid : Int) (st : ServerState)
    (stack : List Value) (v : String) (rest : List String)
    (h0 : trimGo v = v) (h1 : v ≠ "") (h2 : hasPrefixGo v "#" = false)
    (h3 : parseCommandVerb v = some v) :
    serveLines term pid st stack (v :: rest) =
      ⟨(serveLines term pid (executeCommand term pid st ⟨v, stack⟩).state [] rest).state,
       (executeCommand term pid st ⟨v, stack⟩).out ++
         (serveLines term pid (executeCommand term pid st ⟨v, stack⟩).state [] rest).out,
       (executeCommand term pid st ⟨v, stack⟩).spawns ++
         (serveLines term pid (executeCommand term pid st ⟨v, stack⟩).state [] rest).spawns⟩ := by
  simp only [serveLines, h0, h2, h3, if_neg h1, Bool.false_eq_true, if_false]

/-- `executeCommand` on a verb outside the dispatcher's switch answers
with the `unknown command` error frame and changes nothing. -/
theorem executeCommand_default (term : String) (pid : Int) (st : ServerState)
    (cmd : Command)
    (h1 : cmd.name ≠ "+filter-name") (h2 : cmd.name ≠ "+filter-cat")
    (h3 : cmd.name ≠ "+filter-path") (h4 : cmd.name ≠ "0filters")
    (h5 : cmd.name ≠ "list") (h6 : cmd.name ≠ "run") (h7 : cmd.name ≠ "lang") :
    executeCommand term pid st cmd =
      ⟨st, errFrame cmd.name "unknown command" "Command not recognized", []⟩ := by
  unfold executeCommand
  rw [if_neg h1, if_neg h2, if_neg h3, if_neg h4, if_neg h5, if_neg h6, if_neg h7]

/-- A parser-known verb without a dispatcher case: the loop commits the
stack, the dispatcher answers `unknown command`, and serving goes on. -/
theorem serveLines_unhandled (term : String) (pid : Int) (st : ServerState)
    (stack : List Value) (rest : List String) (v : String)
    (h0 : trimGo v = v) (h1 : v ≠ "") (h2 : hasPrefixGo v "#" = false)
    (h3 : parseCommandVerb v = some v)
    (h4 : v ≠ "+filter-name") (h5 : v ≠ "+filter-cat") (h6 : v ≠ "+filter-path")
    (h7 : v ≠ "0filters") (h8 : v ≠ "list") (h9 : v ≠ "run") (h10 : v ≠ "lang") :
    serveLines term pid st stack (v :: rest) =
      ⟨(serveLines term pid st [] rest).state,
       errFrame v "unknown command" "Command not recognized" ++
         (serveLines term pid st [] rest).out,
       (serveLines term pid st [] rest).spawns⟩ := by
  rw [serveLines_verb term pid st stack v rest h0 h1 h2 h3,
    executeCommand_default term pid st ⟨v, stack⟩ h4 h5 h6 h7 h8 h9 h10]
  simp

/-- C6 counterexample: the claim says any line whose verb token is not
among the eleven known verbs draws an `unknown command` error frame.  On
the line `foobar` (no known verb and no parseable value) the server
instead answers with a `parse error` frame — `unknown command` never
appears — while the connection stays open (the following `list` command
is still served) with a fresh stack. -/
theorem c6_unknown_verb_cex :
    (handleConnection "xterm" 0 { index := Index.NewIndex }
        ("TXT01foobar\nlist\n".toList)).out =
      "error-cmd: parser\nerror: parse error\ndesc: parse error: cannot parse value: foobar\n\n" ++
        "list-len: 0\npages: 1\n\n"
    ∧ containsGo
        (handleConnection "xterm" 0 { index := Index.NewIndex }
          ("TXT01foobar\nlist\n".toList)).out "unknown command" = false
    ∧ knownVerbs.contains "foobar" = false := by
  decide

/-- C6 amended: a line whose token is not a known verb is treated as a
value push; when it cannot be parsed as a value either, the server
answers with a `parse error` frame (not `unknown command`), keeps the
connection open, and the next command starts with an empty stack.  The
`unknown command` error frame arises for the parser-known verbs that
have no dispatcher case: `filter-name`, `saveconf`, `list-next`,
`reindex`; it too leaves the connection open and the stack consumed. -/
theorem c6_amended_parse_error :
    (∀ (term : String) (pid : Int) (st : ServerState) (stack : List Value)
        (line : String) (rest : List String),
      trimGo line ≠ "" →
      hasPrefixGo (trimGo line) "#" = false →
      parseCommandVerb (trimGo line) = none →
      parseValue (trimGo line) = none →
      serveLines term pid st stack (line :: rest) =
        ⟨(serveLines term pid st [] rest).state,
         errFrame "parser" "parse error"
             ("parse error: cannot parse value: " ++ trimGo line) ++
           (serveLines term pid st [] rest).out,
         (serveLines term pid st [] rest).spawns⟩)
    ∧ (∀ (term : String) (pid : Int) (st : ServerState) (stack : List Value)
        (rest : List String),
        ∀ v ∈ (["filter-name", "saveconf", "list-next", "reindex"] : List String),
      serveLines term pid st stack (v :: rest) =
        ⟨(serveLines term pid st [] rest).state,
         errFrame v "unknown command" "Command not recognized" ++
           (serveLines term pid st [] rest).out,
         (serveLines term pid st [] rest).spawns⟩) := by
  constructor
  · intro term pid st stack line rest h1 h2 h3 h4
    simp only [serveLines, h2, h3, h4, if_neg h1, Bool.false_eq_true, if_false]
  · intro term pid st stack rest v hv
    fin_cases hv <;>
      exact serveLines_unhandled term pid st stack rest _ (by decide) (by decide)
        (by decide) (by decide) (by decide) (by decide) (by decide) (by decide)
        (by decide) (by decide) (by decide)

theorem c6_amended_parse_error_witness :
    serveLines "xterm" 0 { index := Index.NewIndex } [] ("foobar" :: ["list"]) =
      ⟨(serveLines "xterm" 0 { index := Index.NewIndex } [] ["list"]).state,
       errFrame "parser" "parse error" ("parse error: cannot parse value: " ++ trimGo "foobar") ++
         (serveLines "xterm" 0 { index := Index.NewIndex } [] ["list"]).out,
       (serveLines "xterm" 0 { index := Index.NewIndex } [] ["list"]).spawns⟩
    ∧ serveLines "xterm" 0 { index := Index.NewIndex } [] ("saveconf" :: []) =
        ⟨(serveLines "xterm" 0 { index := Index.NewIndex } [] []).state,
         errFrame "saveconf" "unknown command" "Command not recognized" ++
           (serveLines "xterm" 0 { index := Index.NewIndex } [] []).out,
         (serveLines "xterm" 0 { index := Index.NewIndex } [] []).spawns⟩ :=
  ⟨c6_amended_parse_error.1 "xterm" 0 { index := Index.NewIndex } [] "foobar" ["list"]
     (by decide) (by decide) (by decide) (by decide),
   c6_amended_parse_error.2 "xterm" 0 { index := Index.NewIndex } [] []
     "saveconf" (by decide)⟩

/-- C7: `run` with an integer argument whose ID is not in the index
answers with the `error-cmd: run`, `error: index not found` frame and
nothing else, spawns no process, leaves the whole session state (index
and filters) unchanged, and the connection loop goes on serving the
following lines. -/
theorem c7_run_unknown_id (term : String) (pid : Int) (st : ServerState)
    (i : Int) (restArgs : List Value) (more : List String)
    (h : st.index.Get i = none) :
    executeCommand term pid st ⟨"run", { type := .int, int := i } :: restArgs⟩ =
      ⟨st, errFrame "run" "index not found"
        "Can't run application, requested index not found.", []⟩
    ∧ serveLines term pid st [{ type := .int, int := i }] ("run" :: more) =
        ⟨(serveLines term pid st [] more).state,
         errFrame "run" "index not found"
             "Can't run application, requested index not found." ++
           (serveLines term pid st [] more).out,
         (serveLines term pid st [] more).spawns⟩ := by
  have hexec : executeCommand term pid st ⟨"run", { type := .int, int := i } :: restArgs⟩ =
      ⟨st, errFrame "run" "index not found"
        "Can't run application, requested index not found.", []⟩ := by
    simp [executeCommand, handleRun, h]
  have hexec1 : executeCommand term pid st ⟨"run", [{ type := .int, int := i }]⟩ =
      ⟨st, errFrame "run" "index not found"
        "Can't run application, requested index not found.", []⟩ := by
    simp [executeCommand, handleRun, h]
  refine ⟨hexec, ?_⟩
  rw [serveLines_verb term pid st _ _ more (by decide) (by decide) (by decide) (by decide),
    hexec1]
  simp

theorem c7_run_unknown_id_witness :
    executeCommand "xterm" 0 { index := Index.NewIndex }
        ⟨"run", [{ type := .int, int := 0 }]⟩ =
      ⟨{ index := Index.NewIndex },
       errFrame "run" "index not found"
         "Can't run application, requested index not found.", []⟩ :=
  (c7_run_unknown_id "xterm" 0 { index := Index.NewIndex } 0 [] [] (by decide)).1

/-- C8: `Add` assigns strictly increasing IDs (two successive calls on
any index state), the first ID handed out by a fresh index is 1, and
after any sequence of adds from a fresh index the next-id counter
strictly exceeds every live ID while the live IDs are pairwise
distinct. -/
theorem c8_monotone_ids :
    (∀ (idx : Index) (e e' : Entry), (idx.Add e).2 < ((idx.Add e).1.Add e').2)
    ∧ (∀ e : Entry, (Index.NewIndex.Add e).2 = 1)
    ∧ ∀ es : List Entry, indexInv (addAll Index.NewIndex es) := by
  refine ⟨?_, fun e => rfl, fun es => indexInv_addAll _ es indexInv_newIndex⟩
  intro idx e e'
  simp [Index.Add]

theorem c8_monotone_ids_witness :
    (1 : Int) < (addAll Index.NewIndex [fxEntry]).nextID :=
  (c8_monotone_ids.2.2 [fxEntry]).1 (1, { name := "Firefox", id := 1 }) (by decide)

/-- C9: `0filters` empties all three filter lists, and a subsequent
`list` then matches every entry: the filtered list is the whole
snapshot, its length is `index.Count`, and the emitted response is the
`list-len: count` attribute block followed by one row per entry.  The
index itself is untouched. -/
theorem c9_zero_filters_then_list (term : String) (pid : Int) (st : ServerState)
    (args : List Value) :
    filterEntries (executeCommand term pid st ⟨"0filters", args⟩).state.filters
        (executeCommand term pid st ⟨"0filters", args⟩).state.index.GetAll =
      (executeCommand term pid st ⟨"0filters", args⟩).state.index.GetAll
    ∧ (filterEntries (executeCommand term pid st ⟨"0filters", args⟩).state.filters
        (executeCommand term pid st ⟨"0filters", args⟩).state.index.GetAll).length =
      (executeCommand term pid st ⟨"0filters", args⟩).state.index.Count
    ∧ handleListOut (executeCommand term pid st ⟨"0filters", args⟩).state =
        "list-len: " ++
          Nat.repr (executeCommand term pid st ⟨"0filters", args⟩).state.index.Count ++
          "\npages: 1\n\n" ++
          String.join
            ((executeCommand term pid st ⟨"0filters", args⟩).state.index.GetAll.map
              fun e => intToStr e.id ++ " " ++
                displayName (executeCommand term pid st ⟨"0filters", args⟩).state.lang e ++ "\n")
    ∧ (executeCommand term pid st ⟨"0filters", args⟩).state.index = st.index := by
  have hst : (executeCommand term pid st ⟨"0filters", args⟩).state =
      { st with filters := { nameFilters := [], catFilters := [], pathFilters := [] } } := by
    simp [executeCommand]
  rw [hst]
  have hf : filterEntries { nameFilters := [], catFilters := [], pathFilters := [] }
      st.index.GetAll = st.index.GetAll :=
    List.filter_eq_self.mpr fun e _ => matchesFilters_empty e
  have hc : st.index.GetAll.length = st.index.Count := by
    simp [Index.GetAll, Index.Count]
  refine ⟨hf, by rw [hf, hc], ?_, rfl⟩
  unfold handleListOut
  simp only [hf, hc]

/-- C10: the parser maps both `and` and `not` to the boolean `false`
(and `or` to `true`), and the three filter handlers translate a boolean
argument only to the op strings `or` (true) and `and` (false), so every
filter expression ever appended to the session carries op `or` or `and`
and never `not`. -/
theorem c10_filter_op_never_not :
    ((parseValue "and").map Value.bool = some false
      ∧ (parseValue "not").map Value.bool = some false
      ∧ (parseValue "or").map Value.bool = some true)
    ∧ (∀ (fl : Filters) (args : List Value) (e : FilterExpr),
        e ∈ (handleFilterName fl args).nameFilters →
        e ∈ fl.nameFilters ∨ e.op = "or" ∨ e.op = "and")
    ∧ (∀ (fl : Filters) (args : List Value) (e : FilterExpr),
        e ∈ (handleFilterCat fl args).catFilters →
        e ∈ fl.catFilters ∨ e.op = "or" ∨ e.op = "and")
    ∧ (∀ (fl : Filters) (args : List Value) (e : FilterExpr),
        e ∈ (handleFilterPath fl args).pathFilters →
        e ∈ fl.pathFilters ∨ e.op = "or" ∨ e.op = "and") := by
  refine ⟨by decide, ?_, ?_, ?_⟩
  · intro fl args e he
    unfold handleFilterName at he
    by_cases hv : (applyFilterArgs "or" args).values.length > 0
    · rw [if_pos hv] at he
      simp only [List.mem_append, List.mem_singleton] at he
      rcases he with he | he
      · exact Or.inl he
      · subst he
        exact Or.inr (applyFilterArgs_op "or" args (Or.inl rfl))
    · rw [if_neg hv] at he
      exact Or.inl he
  · intro fl args e he
    unfold handleFilterCat at he
    by_cases hv : (applyFilterArgs "and" args).values.length > 0
    · rw [if_pos hv] at he
      simp only [List.mem_append, List.mem_singleton] at he
      rcases he with he | he
      · exact Or.inl he
      · subst he
        exact Or.inr (applyFilterArgs_op "and" args (Or.inr rfl))
    · rw [if_neg hv] at he
      exact Or.inl he
  · intro fl args e he
    unfold handleFilterPath at he
    by_cases hv : (applyFilterArgs "or" args).values.length > 0
    · rw [if_pos hv] at he
      simp only [List.mem_append, List.mem_singleton] at he
      rcases he with he | he
      · exact Or.inl he
      · subst he
        exact Or.inr (applyFilterArgs_op "or" args (Or.inl rfl))
    · rw [if_neg hv] at he
      exact Or.inl he

theorem c10_filter_op_never_not_witness :
    (⟨["x"], "or"⟩ : FilterExpr) ∈ (Filters.mk [] [] []).nameFilters
    ∨ (⟨["x"], "or"⟩ : FilterExpr).op = "or"
    ∨ (⟨["x"], "or"⟩ : FilterExpr).op = "and" :=
  c10_filter_op_never_not.2.1 (Filters.mk [] [] []) [{ type := .string, str := "x" }]
    ⟨["x"], "or"⟩ (by decide)

end AdeCtld
